import Mathlib

/-!
Shallow embedding of `pipe_in_json.py`: a line-delimited JSON processing
pipeline of three stages (currency conversion, linkid validation, type-based
splitting) driven by a runner loop.  Records are modelled as association
lists of scalar JSON values (the fields the stages touch are all scalar),
Python in-place mutation as explicit state passing, Python exceptions as
an error-carrying result type, and the `jsonlines` sinks by the list of
records written to them together with a closed flag.  Python floats are
modelled as exact rationals: the only arithmetic the program performs is a
single multiplication with no rounding step.
-/

namespace PipeSpec

/-- Scalar JSON values, the value domain of the record fields used by the
stages (`spec.md` §3: numbers, strings, nulls; booleans added for Python
truthiness fidelity). -/
inductive JsonVal where
  | null : JsonVal
  | bool : Bool → JsonVal
  | num : ℚ → JsonVal
  | str : String → JsonVal
deriving DecidableEq, Repr

/-- Python truthiness of a scalar JSON value. -/
def truthy : JsonVal → Bool
  | .null => false
  | .bool b => b
  | .num q => decide (q ≠ 0)
  | .str s => decide (s ≠ "")

/-- Truthiness of `data.get(key, None)`: `None` (absent) is falsy. -/
def truthyOpt : Option JsonVal → Bool
  | none => false
  | some v => truthy v

/-- Is this value a Python `str`? -/
def JsonVal.isStr : JsonVal → Bool
  | .str _ => true
  | _ => false

/-- A record: one parsed JSON object, a dict from string keys to values
(keys unique by construction, since JSON parsing yields a dict). -/
abbrev Record := List (String × JsonVal)

/-- `data.get(k, None)`: first (unique) binding of `k`. -/
def rget : Record → String → Option JsonVal
  | [], _ => none
  | (k', v') :: rest, k => if k' = k then some v' else rget rest k

/-- `data[k] = v`: replace the binding of `k` in place, else append
(Python dict insertion order). -/
def rset : Record → String → JsonVal → Record
  | [], k, v => [(k, v)]
  | (k', v') :: rest, k, v =>
      if k' = k then (k, v) :: rest else (k', v') :: rset rest k v

/-- Python exception classes raised by the modelled code paths. -/
inductive PyErr where
  | valueError : PyErr
  | keyError : PyErr
  | attributeError : PyErr
  | typeError : PyErr
deriving DecidableEq, Repr

deriving instance DecidableEq for Except

/-- Result of a Python statement acting on state `α`: either normal
completion or an exception, in both cases carrying the state as it stands
(mutations made before the raise are kept). -/
inductive PRes (α : Type) where
  | ok : α → PRes α
  | err : PyErr → α → PRes α
deriving DecidableEq, Repr

/-! ### `uuid.UUID` string parsing (`Processor.is_valid_uuid`) -/

/-- Hex digit as accepted by `int(s, 16)` on a 32-character candidate. -/
def isHexChar (c : Char) : Bool :=
  c.isDigit || ('a' ≤ c && c ≤ 'f') || ('A' ≤ c && c ≤ 'F')

/-- One of the two characters stripped by `.strip('\x7b\x7d')`. -/
def isBraceChar (c : Char) : Bool :=
  c.toNat = 123 || c.toNat = 125

/-- `.strip('\x7b\x7d')`: drop brace characters from both ends. -/
def stripBraces (cs : List Char) : List Char :=
  ((cs.dropWhile isBraceChar).reverse.dropWhile isBraceChar).reverse

/-- Fuel-driven worker for `str.replace(pat, '')`: delete every
(left-to-right, non-overlapping) occurrence of `pat`.  Each step consumes
at least one character when `pat` is nonempty, so fuel = input length makes
this total and exact for the nonempty patterns used below. -/
def delPatFuel (pat : List Char) : Nat → List Char → List Char
  | 0, cs => cs
  | _ + 1, [] => []
  | n + 1, c :: rest =>
      if pat.isPrefixOf (c :: rest) then delPatFuel pat n ((c :: rest).drop pat.length)
      else c :: delPatFuel pat n rest

/-- `s.replace(pat, '')` on character lists. -/
def delPat (pat cs : List Char) : List Char :=
  delPatFuel pat cs.length cs

/-- The candidate hex digits extracted by CPython `uuid.UUID(hex=s)`:
`s.replace('urn:', '').replace('uuid:', '').strip('\x7b\x7d').replace('-', '')`. -/
def uuidHexChars (s : String) : List Char :=
  (stripBraces (delPat "uuid:".toList (delPat "urn:".toList s.toList))).filter
    (fun c => c ≠ '-')

/-- CPython `uuid.UUID(hex=s)`: extract the candidate hex digits, then
require exactly 32 hex digits (the `int(hex, 16)` conversion is modelled as
a hex-digit check), else `ValueError`.  On success the parsed UUID is
represented by its 32-digit hex string (always truthy in Python). -/
def pyUUID (s : String) : Except PyErr String :=
  if (uuidHexChars s).length = 32 ∧ (uuidHexChars s).all isHexChar then
    .ok (String.mk (uuidHexChars s))
  else .error .valueError

/-- Does `uuid.UUID(s)` succeed? -/
def pyUuidValid (s : String) : Bool :=
  match pyUUID s with
  | .ok _ => true
  | .error _ => false

/-- `Processor.is_valid_uuid`: `try: return uuid.UUID(x) except ValueError:
return False`.  The returned Python value is modelled by its truthiness
(a parsed UUID object is always truthy, the sentinel `False` is falsy);
a non-string argument makes `uuid.UUID` raise a non-`ValueError` exception
(`AttributeError`), which is not caught. -/
def is_valid_uuid : JsonVal → Except PyErr Bool
  | .str s =>
      match pyUUID s with
      | .ok _ => .ok true
      | .error .valueError => .ok false
      | .error e => .error e
  | _ => .error .attributeError

/-! ### Sinks and the rate table -/

/-- A `jsonlines` output sink: the records appended to it, and whether
`close()` has been called. -/
structure Sink where
  contents : List Record
  closed : Bool
deriving DecidableEq, Repr

/-- `writer.write(data)`. -/
def sinkWrite (s : Sink) (r : Record) : Sink :=
  { s with contents := s.contents ++ [r] }

/-- The exchange-rate table: a JSON object mapping currency codes to
numeric rates (`ExchangeProcessor.get_rates`). -/
abbrev RateTable := List (String × ℚ)

/-- String-keyed lookup in the rate table. -/
def lookupStr : RateTable → String → Option ℚ
  | [], _ => none
  | (k', q) :: rest, k => if k' = k then some q else lookupStr rest k

/-- `self.ex_rates[v]` for an arbitrary key value: the table is a JSON
object, so only a string key can be present; any other scalar key raises
`KeyError`, as does an absent string. -/
def ratesGet (rt : RateTable) : JsonVal → Except PyErr ℚ
  | .str s =>
      match lookupStr rt s with
      | some q => .ok q
      | none => .error .keyError
  | _ => .error .keyError

/-- `data[k]`: subscript lookup, `KeyError` when the key is absent. -/
def getItem (r : Record) (k : String) : Except PyErr JsonVal :=
  match rget r k with
  | some v => .ok v
  | none => .error .keyError

/-- `rate * data[convvalue]` where `rate` is a number: multiplying a
number by a non-number raises `TypeError`. -/
def pyMulNum (q : ℚ) : JsonVal → Except PyErr ℚ
  | .num p => .ok (q * p)
  | _ => .error .typeError

/-! ### `ExchangeProcessor` -/

/-- State of `ExchangeProcessor.__init__`: the fetched rate table, the
target currency, and the derived output key. -/
structure ExchangeCfg where
  ex_rates : RateTable
  default_currency : String
  currency_key : String
deriving DecidableEq, Repr

/-- Python `str.lower` restricted to ASCII (currency codes). -/
def lowerStr (s : String) : String :=
  String.mk (s.toList.map Char.toLower)

/-- `ExchangeProcessor(currency)`: the output key is
`'conv\x7b\x7dvalue'.format(currency.lower())`. -/
def mkExchangeCfg (rt : RateTable) (currency : String) : ExchangeCfg :=
  { ex_rates := rt, default_currency := currency
    currency_key := "conv" ++ lowerStr currency ++ "value" }

/-- `ExchangeProcessor.process(data)`: when `convvalue` is truthy and
`convvalueunit` (or `None`) differs from the target currency, evaluate
`self.ex_rates[data[convvalueunit]] * data[convvalue]` and store it under
the derived key; subexpressions are evaluated in Python's left-to-right
order, and the assignment is the last step, so a raise leaves the record
untouched. -/
def exchangeProcess (cfg : ExchangeCfg) (r : Record) : PRes Record :=
  if truthyOpt (rget r "convvalue") = true ∧
      rget r "convvalueunit" ≠ some (.str cfg.default_currency) then
    match getItem r "convvalueunit" with
    | .error e => .err e r
    | .ok u =>
      match ratesGet cfg.ex_rates u with
      | .error e => .err e r
      | .ok rate =>
        match getItem r "convvalue" with
        | .error e => .err e r
        | .ok v =>
          match pyMulNum rate v with
          | .error e => .err e r
          | .ok q => .ok (rset r cfg.currency_key (.num q))
  else .ok r

/-- `ExchangeProcessor.close()`: `pass`. -/
def exchangeClose (cfg : ExchangeCfg) : ExchangeCfg := cfg

/-! ### `ValidationProcessor` -/

/-- `ValidationProcessor.process(data)`: write `data` to the dead-letter
sink when `linkid` is absent/falsy (short-circuit: no UUID parse) or when
`is_valid_uuid` returns the falsy sentinel; an exception from
`is_valid_uuid` propagates before any write. -/
def validationProcess (st : Sink) (r : Record) : PRes (Sink × Record) :=
  match rget r "linkid" with
  | none => .ok (sinkWrite st r, r)
  | some v =>
      if truthy v = true then
        match is_valid_uuid v with
        | .error e => .err e (st, r)
        | .ok true => .ok (st, r)
        | .ok false => .ok (sinkWrite st r, r)
      else .ok (sinkWrite st r, r)

/-- `ValidationProcessor.close()`: close the dead-letter sink. -/
def validationClose (st : Sink) : Sink :=
  { st with closed := true }

/-! ### `SplittingProcessor` -/

/-- The `_cached_writers` dict: type value → sink, in insertion order,
keys unique by construction of `get_writer`. -/
abbrev Writers := List (JsonVal × Sink)

/-- `_cached_writers[t]` as a partial lookup. -/
def lookupW : Writers → JsonVal → Option Sink
  | [], _ => none
  | (k', s) :: rest, k => if k' = k then some s else lookupW rest k

/-- `self.get_writer(t).write(data)`: reuse the cached sink for `t` and
append, or (first encounter) open a fresh sink, cache it, and append. -/
def writeToType : Writers → JsonVal → Record → Writers
  | [], t, r => [(t, { contents := [r], closed := false })]
  | (k, s) :: rest, t, r =>
      if k = t then (k, sinkWrite s r) :: rest
      else (k, s) :: writeToType rest t r

/-- State of `SplittingProcessor`: the `strict_uuid` flag and the cached
writers (the output-path template only determines file names on disk,
which the model elides; a sink is identified by its type key). -/
structure SplitState where
  strict_uuid : Bool
  writers : Writers
deriving DecidableEq, Repr

/-- The inner condition of `SplittingProcessor.process`:
`not self.strict_uuid or data.get('linkid', None) and self.is_valid_uuid(data['linkid'])`,
with Python short-circuit evaluation. -/
def splitCond (st : SplitState) (r : Record) : Except PyErr Bool :=
  if st.strict_uuid = false then .ok true
  else
    match rget r "linkid" with
    | none => .ok false
    | some v => if truthy v = true then is_valid_uuid v else .ok false

/-- `SplittingProcessor.process(data)`: nothing when `type` is
absent/falsy; otherwise write to the type's sink exactly when the strict
condition passes. -/
def splittingProcess (st : SplitState) (r : Record) : PRes (SplitState × Record) :=
  match rget r "type" with
  | none => .ok (st, r)
  | some t =>
      if truthy t = true then
        match splitCond st r with
        | .error e => .err e (st, r)
        | .ok true => .ok ({ st with writers := writeToType st.writers t r }, r)
        | .ok false => .ok (st, r)
      else .ok (st, r)

/-- One step of `SplittingProcessor.close()`:
`self._cached_writers[writer].close()` for the key `writer`, i.e. mark the
first (unique) entry for that key closed. -/
def closeKey : Writers → JsonVal → Writers
  | [], _ => []
  | (k', s) :: rest, k =>
      if k' = k then (k', { s with closed := true }) :: rest
      else (k', s) :: closeKey rest k

/-- `SplittingProcessor.close()`: `for writer in self._cached_writers:`
iterates the dict keys in insertion order and closes the sink looked up
at each key. -/
def splitClose (st : SplitState) : SplitState :=
  { st with writers := (st.writers.map Prod.fst).foldl closeKey st.writers }

/-! ### The `__main__` pipeline runner -/

/-- The mutable state of the three pipeline stages, in pipeline order
`[exchanger, validator, splitter]`. -/
structure PipeState where
  cfg : ExchangeCfg
  val : Sink
  split : SplitState
deriving DecidableEq, Repr

/-- `for pipe in pipelines: pipe.process(raw_data)`: apply the three
stages in pipeline order to one record, stopping at the first uncaught
exception (the record is threaded through, each stage seeing the same
object the previous one may have mutated). -/
def stepRecord (ps : PipeState) (r : Record) : PRes (PipeState × Record) :=
  match exchangeProcess ps.cfg r with
  | .err e r1 => .err e (ps, r1)
  | .ok r1 =>
      match validationProcess ps.val r1 with
      | .err e (v1, r2) => .err e ({ ps with val := v1 }, r2)
      | .ok (v1, r2) =>
          match splittingProcess ps.split r2 with
          | .err e (s1, r3) => .err e ({ ps with val := v1, split := s1 }, r3)
          | .ok (s1, r3) => .ok ({ ps with val := v1, split := s1 }, r3)

/-- `for pipe in pipelines: pipe.close()` on `StopIteration`: close every
stage in pipeline order (exchange close is `pass`). -/
def closeAll (ps : PipeState) : PipeState :=
  { cfg := exchangeClose ps.cfg, val := validationClose ps.val
    split := splitClose ps.split }

/-- The `while True` loop of `__main__`: pull a record, run it through
every stage, increment `rows_counter`; on exhaustion close all stages and
report the counter.  An uncaught exception aborts the loop (and skips the
closing phase). -/
def runLoop : PipeState → Nat → List Record → PRes (PipeState × Nat)
  | ps, n, [] => .ok (closeAll ps, n)
  | ps, n, r :: rs =>
      match stepRecord ps r with
      | .err e (ps1, _) => .err e (ps1, n)
      | .ok (ps1, _) => runLoop ps1 (n + 1) rs

/-- Initial pipeline state built by `__main__`: default `ExchangeProcessor`
(target USD, rates as fetched), empty dead-letter sink, default strict
`SplittingProcessor` with an empty writer cache. -/
def initState (rt : RateTable) : PipeState :=
  { cfg := mkExchangeCfg rt "USD"
    val := { contents := [], closed := false }
    split := { strict_uuid := true, writers := [] } }

/-- The whole `__main__` run on a finite record source. -/
def runPipeline (rt : RateTable) (rs : List Record) : PRes (PipeState × Nat) :=
  runLoop (initState rt) 0 rs

/-- The valid UUID example from the spec. -/
def uuidGoodStr : String := "9a7c6e3a-0b38-4883-b21a-2daeb704b595"

/-- The invalid UUID example from the spec. -/
def uuidBadStr : String := "incorrect-uuid-b21a-2daeb704b595"

/-! ### Record lemmas -/

theorem rget_rset_self (r : Record) (k : String) (v : JsonVal) :
    rget (rset r k v) k = some v := by
  induction r with
  | nil => simp [rset, rget]
  | cons p rest ih =>
      obtain ⟨a, b⟩ := p
      by_cases h : a = k
      · subst h; simp [rset, rget]
      · simp [rset, rget, h, ih]

theorem rget_rset_ne (r : Record) (k k' : String) (v : JsonVal) (hne : k' ≠ k) :
    rget (rset r k v) k' = rget r k' := by
  induction r with
  | nil =>
      simp only [rset, rget]
      rw [if_neg fun h => hne h.symm]
  | cons p rest ih =>
      obtain ⟨a, b⟩ := p
      by_cases h : a = k
      · subst h
        simp only [rset, if_pos rfl, rget]
        rw [if_neg fun h => hne h.symm, if_neg fun h => hne h.symm]
      · simp only [rset, if_neg h, rget]
        by_cases h' : a = k'
        · rw [if_pos h', if_pos h']
        · rw [if_neg h', if_neg h', ih]

theorem isSome_rget_rset (r : Record) (k k' : String) (v : JsonVal)
    (h : (rget r k').isSome = true) : (rget (rset r k v) k').isSome = true := by
  by_cases hk : k' = k
  · subst hk; rw [rget_rset_self]; rfl
  · rw [rget_rset_ne r k k' v hk]; exact h

/-! ### Claims about `ExchangeProcessor` -/

/-- C3: when `convvalue` is a truthy number, `convvalueunit` is a string
different from the target currency, and the rate table maps that string to
`rate`, `process` stores exactly `rate * convvalue` (one exact
multiplication, no rounding; floats are modelled as rationals) under the
derived key `conv<lowercased-currency>value`, and no other field changes. -/
theorem exchange_process_converts (rt : RateTable) (currency : String) (r : Record)
    (q rate : ℚ) (u : String)
    (hv : rget r "convvalue" = some (.num q)) (hq : q ≠ 0)
    (hu : rget r "convvalueunit" = some (.str u)) (hne : u ≠ currency)
    (hr : lookupStr rt u = some rate) :
    exchangeProcess (mkExchangeCfg rt currency) r =
      .ok (rset r ("conv" ++ lowerStr currency ++ "value") (.num (rate * q))) ∧
    ∀ k, k ≠ "conv" ++ lowerStr currency ++ "value" →
      rget (rset r ("conv" ++ lowerStr currency ++ "value") (.num (rate * q))) k =
        rget r k := by
  refine ⟨?_, fun k hk => rget_rset_ne r _ k _ hk⟩
  simp only [exchangeProcess, mkExchangeCfg]
  rw [if_pos]
  · simp only [getItem, hu, hv, ratesGet, hr, pyMulNum]
  · refine ⟨?_, ?_⟩
    · rw [hv]; simp [truthyOpt, truthy, hq]
    · rw [hu]; simp only [ne_eq, Option.some.injEq, JsonVal.str.injEq]; exact hne

/-- C4: when `convvalue` is absent/falsy or `convvalueunit` already equals
the target currency, `process` leaves the record unchanged. -/
theorem exchange_process_noop (cfg : ExchangeCfg) (r : Record)
    (h : truthyOpt (rget r "convvalue") = false ∨
         rget r "convvalueunit" = some (.str cfg.default_currency)) :
    exchangeProcess cfg r = .ok r := by
  simp only [exchangeProcess]
  rw [if_neg]
  rintro ⟨h1, h2⟩
  rcases h with h | h
  · rw [h1] at h; cases h
  · exact h2 h

/-- C5: when `convvalue` is truthy, `convvalueunit` differs from the target
currency, and `convvalueunit` is absent from the rate table (including when
the field itself is absent or not a string), `process` raises an uncaught
`KeyError` and the record is unchanged (the assignment never runs). -/
theorem exchange_process_missing_rate (cfg : ExchangeCfg) (r : Record)
    (hv : truthyOpt (rget r "convvalue") = true)
    (hu : rget r "convvalueunit" ≠ some (.str cfg.default_currency))
    (hr : ∀ u, rget r "convvalueunit" = some (.str u) → lookupStr cfg.ex_rates u = none) :
    exchangeProcess cfg r = .err .keyError r := by
  simp only [exchangeProcess]
  rw [if_pos ⟨hv, hu⟩]
  cases hcu : rget r "convvalueunit" with
  | none => simp [getItem, hcu]
  | some v =>
      cases v with
      | str s => simp [getItem, hcu, ratesGet, hr s hcu]
      | null => simp [getItem, hcu, ratesGet]
      | bool b => simp [getItem, hcu, ratesGet]
      | num p => simp [getItem, hcu, ratesGet]

/-- Witness for C3 at the spec's DKK→USD example shape. -/
theorem exchange_process_converts_witness :
    ((5 : ℚ) ≠ 0) ∧ ("DKK" ≠ "USD") ∧
    (exchangeProcess (mkExchangeCfg [("DKK", (3 : ℚ)/20)] "USD")
        [("convvalue", JsonVal.num 5), ("convvalueunit", JsonVal.str "DKK")] =
      .ok (rset [("convvalue", JsonVal.num 5), ("convvalueunit", JsonVal.str "DKK")]
            ("conv" ++ lowerStr "USD" ++ "value") (.num ((3 : ℚ)/20 * 5))) ∧
     ∀ k, k ≠ "conv" ++ lowerStr "USD" ++ "value" →
       rget (rset [("convvalue", JsonVal.num 5), ("convvalueunit", JsonVal.str "DKK")]
              ("conv" ++ lowerStr "USD" ++ "value") (.num ((3 : ℚ)/20 * 5))) k =
         rget [("convvalue", JsonVal.num 5), ("convvalueunit", JsonVal.str "DKK")] k) :=
  ⟨by decide, by decide,
    exchange_process_converts [("DKK", (3 : ℚ)/20)] "USD"
      [("convvalue", JsonVal.num 5), ("convvalueunit", JsonVal.str "DKK")]
      5 ((3 : ℚ)/20) "DKK" rfl (by decide) rfl (by decide) rfl⟩

/-- Witness for C4 on the empty record. -/
theorem exchange_process_noop_witness :
    (truthyOpt (rget ([] : Record) "convvalue") = false) ∧
    exchangeProcess (mkExchangeCfg [] "USD") [] = .ok [] :=
  ⟨by decide, exchange_process_noop (mkExchangeCfg [] "USD") [] (Or.inl (by decide))⟩

/-- Witness for C5: truthy `convvalue` but no `convvalueunit` field. -/
theorem exchange_process_missing_rate_witness :
    (truthyOpt (rget [("convvalue", JsonVal.num 5)] "convvalue") = true) ∧
    exchangeProcess (mkExchangeCfg [] "USD") [("convvalue", JsonVal.num 5)] =
      .err .keyError [("convvalue", JsonVal.num 5)] :=
  ⟨by decide,
    exchange_process_missing_rate (mkExchangeCfg [] "USD") [("convvalue", JsonVal.num 5)]
      (by decide) (by decide) (fun u h => Option.noConfusion h)⟩

/-! ### Claims about `is_valid_uuid` -/

theorem pyUUID_error_eq (s : String) (e : PyErr) (h : pyUUID s = .error e) :
    e = .valueError := by
  unfold pyUUID at h
  split at h
  · cases h
  · injection h with h'; exact h'.symm

/-- C8: for every string candidate, `is_valid_uuid` returns normally — the
(truthy) parsed UUID when `uuid.UUID` succeeds, the falsy sentinel `False`
when parsing raises `ValueError` — and in particular it is truthy on the
spec's valid example and falsy on its invalid example. -/
theorem is_valid_uuid_spec :
    (∀ s u, pyUUID s = .ok u → is_valid_uuid (.str s) = .ok true) ∧
    (∀ s, pyUUID s = .error .valueError → is_valid_uuid (.str s) = .ok false) ∧
    (∀ s, ∃ b, is_valid_uuid (.str s) = .ok b) ∧
    is_valid_uuid (.str uuidGoodStr) = .ok true ∧
    is_valid_uuid (.str uuidBadStr) = .ok false := by
  refine ⟨fun s u h => by simp [is_valid_uuid, h],
          fun s h => by simp [is_valid_uuid, h], fun s => ?_, by decide, by decide⟩
  cases h : pyUUID s with
  | ok u => exact ⟨true, by simp [is_valid_uuid, h]⟩
  | error e =>
      rw [pyUUID_error_eq s e h] at h
      exact ⟨false, by simp [is_valid_uuid, h]⟩

/-- Witness for C8 at the spec's valid UUID example. -/
theorem is_valid_uuid_spec_witness :
    is_valid_uuid (.str uuidGoodStr) = .ok true :=
  is_valid_uuid_spec.1 uuidGoodStr "9a7c6e3a0b384883b21a2daeb704b595" (by decide)

/-! ### C9: no stage removes a record field -/

/-- C9: every field present in a record before a stage's `process` call
that returns normally is still present afterwards — the currency stage only
adds (or overwrites) its derived field, and validation/splitting never
mutate the record at all. -/
theorem stages_preserve_fields (cfg : ExchangeCfg) (vst : Sink) (sst : SplitState)
    (r : Record) :
    (∀ r', exchangeProcess cfg r = .ok r' →
        ∀ k, (rget r k).isSome = true → (rget r' k).isSome = true) ∧
    (∀ out, validationProcess vst r = .ok out → out.2 = r) ∧
    (∀ out, splittingProcess sst r = .ok out → out.2 = r) := by
  refine ⟨fun r' h k hk => ?_, fun out h => ?_, fun out h => ?_⟩
  · simp only [exchangeProcess] at h
    split at h
    · split at h
      · cases h
      · split at h
        · cases h
        · split at h
          · cases h
          · split at h
            · cases h
            · injection h with h'; subst h'; exact isSome_rget_rset r _ k _ hk
    · injection h with h'; subst h'; exact hk
  · simp only [validationProcess] at h
    split at h
    · injection h with h'; subst h'; rfl
    · split at h
      · split at h
        · cases h
        · injection h with h'; subst h'; rfl
        · injection h with h'; subst h'; rfl
      · injection h with h'; subst h'; rfl
  · simp only [splittingProcess] at h
    split at h
    · injection h with h'; subst h'; rfl
    · split at h
      · split at h
        · cases h
        · injection h with h'; subst h'; rfl
        · injection h with h'; subst h'; rfl
      · injection h with h'; subst h'; rfl

/-- Witness for C9: a one-field record passes the exchange stage with the
field still present. -/
theorem stages_preserve_fields_witness :
    (rget [("a", JsonVal.null)] "a").isSome = true :=
  (stages_preserve_fields (mkExchangeCfg [] "USD") { contents := [], closed := false }
      { strict_uuid := true, writers := [] } [("a", JsonVal.null)]).1
    [("a", JsonVal.null)] (by decide) "a" (by decide)

/-! ### C10: non-string truthy `linkid` raises -/

/-- A record whose `linkid` is the integer `1`. -/
def numLinkidRec : Record := [("linkid", JsonVal.num 1)]

/-- The same with a truthy `type`, so the splitting stage reaches the
strict UUID check. -/
def numLinkidTypedRec : Record := [("type", JsonVal.str "click"), ("linkid", JsonVal.num 1)]

/-- C10: for a record whose `linkid` is the truthy non-string `1`,
`uuid.UUID` raises an `AttributeError`, which `is_valid_uuid` does not
catch (it catches only `ValueError`), so both the validation stage and the
strict-mode splitting stage propagate the exception instead of treating the
record as invalid: nothing is written and no sink is created. -/
theorem nonstring_linkid_raises :
    (∀ st : Sink, validationProcess st numLinkidRec =
        .err .attributeError (st, numLinkidRec)) ∧
    (∀ ws : Writers, splittingProcess { strict_uuid := true, writers := ws }
        numLinkidTypedRec =
        .err .attributeError ({ strict_uuid := true, writers := ws }, numLinkidTypedRec)) :=
  ⟨fun _ => rfl, fun _ => rfl⟩

/-! ### Writer-cache lemmas -/

theorem is_valid_uuid_str (s : String) :
    is_valid_uuid (.str s) = .ok (pyUuidValid s) := by
  simp only [is_valid_uuid, pyUuidValid]
  cases h : pyUUID s with
  | ok u => rfl
  | error e =>
      have he := pyUUID_error_eq s e h
      subst he
      rfl

theorem foldl_closeKey_cons (keys : List JsonVal) (k : JsonVal) (s : Sink)
    (ws : Writers) (hk : k ∉ keys) :
    keys.foldl closeKey ((k, s) :: ws) = (k, s) :: keys.foldl closeKey ws := by
  induction keys generalizing ws with
  | nil => rfl
  | cons a ks ih =>
      have ha : k ≠ a := fun h => hk (h ▸ List.mem_cons_self a ks)
      simp only [List.foldl]
      rw [show closeKey ((k, s) :: ws) a = (k, s) :: closeKey ws a from by
        simp [closeKey, ha]]
      exact ih (closeKey ws a) fun h => hk (List.mem_cons_of_mem a h)

theorem closeKey_shape (ws : Writers) (k : JsonVal) :
    (closeKey ws k).map (fun e => (e.1, e.2.contents)) =
      ws.map (fun e => (e.1, e.2.contents)) := by
  induction ws with
  | nil => rfl
  | cons p rest ih =>
      obtain ⟨a, s⟩ := p
      by_cases h : a = k
      · simp [closeKey, h]
      · simp [closeKey, h, ih]

theorem foldl_closeKey_shape (keys : List JsonVal) (ws : Writers) :
    (keys.foldl closeKey ws).map (fun e => (e.1, e.2.contents)) =
      ws.map (fun e => (e.1, e.2.contents)) := by
  induction keys generalizing ws with
  | nil => rfl
  | cons a ks ih => simp only [List.foldl]; rw [ih, closeKey_shape]

theorem closeAllKeys_closed (ws : Writers) (h : (ws.map Prod.fst).Nodup) :
    ∀ e ∈ (ws.map Prod.fst).foldl closeKey ws, e.2.closed = true := by
  induction ws with
  | nil => simp
  | cons p rest ih =>
      obtain ⟨k, s⟩ := p
      simp only [List.map, List.foldl]
      rw [show closeKey ((k, s) :: rest) k = (k, { s with closed := true }) :: rest from by
        simp [closeKey]]
      have hk : k ∉ rest.map Prod.fst := (List.nodup_cons.mp h).1
      rw [foldl_closeKey_cons _ _ _ _ hk]
      intro e he
      rcases List.mem_cons.mp he with he | he
      · subst he; rfl
      · exact ih (List.nodup_cons.mp h).2 e he

/-! ### C2: `SplittingProcessor.close` closes every cached sink -/

/-- C2: with the writer cache's keys distinct (which the dict model
guarantees), `close()` marks every cached sink closed — the key-indexed
indirection `self.\x5fcached_writers[writer].close()` reaches every sink
value exactly once, so the §4.5 contract holds and the §9 suspicion of a
wrong index is unfounded — while keys and contents are untouched. -/
theorem splitting_close_closes_every_sink (st : SplitState)
    (h : (st.writers.map Prod.fst).Nodup) :
    (∀ e ∈ (splitClose st).writers, e.2.closed = true) ∧
    (splitClose st).writers.map (fun e => (e.1, e.2.contents)) =
      st.writers.map (fun e => (e.1, e.2.contents)) :=
  ⟨closeAllKeys_closed st.writers h, foldl_closeKey_shape _ _⟩

/-- Witness for C2 on a two-sink cache. -/
theorem splitting_close_closes_every_sink_witness :
    (([(JsonVal.str "click", ({ contents := [], closed := false } : Sink)),
       (JsonVal.str "view", ({ contents := [], closed := false } : Sink))].map
        Prod.fst).Nodup) ∧
    ∀ e ∈ (splitClose
        { strict_uuid := true,
          writers := [(JsonVal.str "click", { contents := [], closed := false }),
                      (JsonVal.str "view", { contents := [], closed := false })] }).writers,
      e.2.closed = true :=
  ⟨by decide,
    (splitting_close_closes_every_sink
      { strict_uuid := true,
        writers := [(JsonVal.str "click", { contents := [], closed := false }),
                    (JsonVal.str "view", { contents := [], closed := false })] }
      (by decide)).1⟩

/-! ### C6: validation dead-letters exactly the invalid records -/

/-- `linkid` is absent, falsy, or a string — the cases in which
`ValidationProcessor.process` returns normally. -/
def linkidSafe (r : Record) : Bool :=
  match rget r "linkid" with
  | none => true
  | some v => !truthy v || v.isStr

/-- The spec's invalidity predicate: `linkid` missing/falsy, or failing
UUID-format parsing. -/
def linkidInvalid (r : Record) : Bool :=
  match rget r "linkid" with
  | none => true
  | some v =>
      if truthy v = true then
        match v with
        | .str s => !pyUuidValid s
        | _ => true
      else true

/-- C6: on every record whose `linkid` is absent, falsy, or a string (the
non-raising cases; a truthy non-string raises instead, see the C10
theorem), `process` returns normally, leaves the record unmodified, and
appends it to the dead-letter sink if and only if it is invalid; valid
records leave the stage's only sink — hence everything this stage can
write to — untouched. -/
theorem validation_process_deadletter_iff (st : Sink) (r : Record)
    (h : linkidSafe r = true) :
    ∃ st', validationProcess st r = .ok (st', r) ∧
      (st'.contents = st.contents ++ [r] ↔ linkidInvalid r = true) ∧
      (linkidInvalid r = false → st' = st) ∧
      st'.closed = st.closed := by
  cases hlk : rget r "linkid" with
  | none =>
      refine ⟨sinkWrite st r, ?_, ?_, ?_, rfl⟩
      · simp [validationProcess, hlk]
      · simp [sinkWrite, linkidInvalid, hlk]
      · simp [linkidInvalid, hlk]
  | some v =>
      cases htr : truthy v with
      | false =>
          refine ⟨sinkWrite st r, ?_, ?_, ?_, rfl⟩
          · simp [validationProcess, hlk, htr]
          · simp [sinkWrite, linkidInvalid, hlk, htr]
          · simp [linkidInvalid, hlk, htr]
      | true =>
          have hstr : v.isStr = true := by
            simpa [linkidSafe, hlk, htr] using h
          cases v with
          | null => cases hstr
          | bool b => cases hstr
          | num q => cases hstr
          | str s =>
              cases hval : pyUuidValid s with
              | true =>
                  refine ⟨st, ?_, ?_, fun _ => rfl, rfl⟩
                  · simp [validationProcess, hlk, htr, is_valid_uuid_str, hval]
                  · simp [linkidInvalid, hlk, htr, hval]
              | false =>
                  refine ⟨sinkWrite st r, ?_, ?_, ?_, rfl⟩
                  · simp [validationProcess, hlk, htr, is_valid_uuid_str, hval]
                  · simp [sinkWrite, linkidInvalid, hlk, htr, hval]
                  · simp [linkidInvalid, hlk, htr, hval]

/-- Witness for C6: a record with a valid string `linkid`. -/
theorem validation_process_deadletter_iff_witness :
    (linkidSafe [("linkid", JsonVal.str uuidGoodStr)] = true) ∧
    ∃ st', validationProcess { contents := [], closed := false }
        [("linkid", JsonVal.str uuidGoodStr)] =
        .ok (st', [("linkid", JsonVal.str uuidGoodStr)]) ∧
      (st'.contents = ([] : List Record) ++ [[("linkid", JsonVal.str uuidGoodStr)]] ↔
        linkidInvalid [("linkid", JsonVal.str uuidGoodStr)] = true) ∧
      (linkidInvalid [("linkid", JsonVal.str uuidGoodStr)] = false →
        st' = { contents := [], closed := false }) ∧
      st'.closed = false :=
  ⟨by decide,
    validation_process_deadletter_iff { contents := [], closed := false }
      [("linkid", JsonVal.str uuidGoodStr)] (by decide)⟩

/-! ### C7: splitting routes by type under the strict-uuid condition -/

theorem lookupW_writeToType_new (ws : Writers) (t : JsonVal) (r : Record)
    (h : lookupW ws t = none) :
    lookupW (writeToType ws t r) t = some { contents := [r], closed := false } := by
  induction ws with
  | nil => simp [writeToType, lookupW]
  | cons p rest ih =>
      obtain ⟨a, s⟩ := p
      by_cases ha : a = t
      · simp [lookupW, ha] at h
      · simp only [lookupW, if_neg ha] at h
        simp [writeToType, lookupW, ha, ih h]

theorem lookupW_writeToType_old (ws : Writers) (t : JsonVal) (r : Record) (s : Sink)
    (h : lookupW ws t = some s) :
    lookupW (writeToType ws t r) t = some (sinkWrite s r) := by
  induction ws with
  | nil => simp [lookupW] at h
  | cons p rest ih =>
      obtain ⟨a, s'⟩ := p
      by_cases ha : a = t
      · simp only [lookupW, if_pos ha] at h
        injection h with h'
        subst h'
        simp [writeToType, lookupW, ha]
      · simp only [lookupW, if_neg ha] at h
        simp [writeToType, lookupW, ha, ih h]

theorem lookupW_writeToType_ne (ws : Writers) (t t' : JsonVal) (r : Record)
    (hne : t' ≠ t) :
    lookupW (writeToType ws t r) t' = lookupW ws t' := by
  induction ws with
  | nil =>
      simp only [writeToType, lookupW]
      rw [if_neg fun h => hne h.symm]
  | cons p rest ih =>
      obtain ⟨a, s⟩ := p
      by_cases ha : a = t
      · subst ha
        simp only [writeToType, if_pos rfl, lookupW]
        rw [if_neg fun h => hne h.symm, if_neg fun h => hne h.symm]
      · simp only [writeToType, if_neg ha, lookupW]
        by_cases ha' : a = t'
        · rw [if_pos ha', if_pos ha']
        · rw [if_neg ha', if_neg ha', ih]

/-- C7: the splitting stage (i) does nothing when `type` is absent/falsy;
(ii) when `type` is truthy and either `strict_uuid` is off or `linkid` is a
truthy string passing UUID validation, writes the record to the sink for
its `type` — created on first encounter, reused and appended to afterwards,
other entries untouched; (iii) in strict mode with `linkid` absent/falsy or
a string failing validation, drops the record: state unchanged, no sink
created. -/
theorem splitting_process_routes (st : SplitState) (r : Record) :
    (truthyOpt (rget r "type") = false → splittingProcess st r = .ok (st, r)) ∧
    (∀ t, rget r "type" = some t → truthy t = true →
      (st.strict_uuid = false ∨
        ∃ s, rget r "linkid" = some (.str s) ∧ truthy (.str s) = true ∧
          pyUuidValid s = true) →
      splittingProcess st r =
        .ok ({ st with writers := writeToType st.writers t r }, r)) ∧
    (st.strict_uuid = true → truthyOpt (rget r "type") = true →
      (truthyOpt (rget r "linkid") = false ∨
        ∃ s, rget r "linkid" = some (.str s) ∧ pyUuidValid s = false) →
      splittingProcess st r = .ok (st, r)) ∧
    (∀ t, (lookupW st.writers t = none →
        lookupW (writeToType st.writers t r) t =
          some { contents := [r], closed := false }) ∧
      (∀ s, lookupW st.writers t = some s →
        lookupW (writeToType st.writers t r) t = some (sinkWrite s r)) ∧
      (∀ t', t' ≠ t →
        lookupW (writeToType st.writers t r) t' = lookupW st.writers t')) := by
  refine ⟨fun h => ?_, fun t hty htr hcond => ?_, fun hstrict hty hbad => ?_,
    fun t => ⟨lookupW_writeToType_new st.writers t r,
      fun s => lookupW_writeToType_old st.writers t r s,
      fun t' => lookupW_writeToType_ne st.writers t t' r⟩⟩
  · cases hty : rget r "type" with
    | none => simp [splittingProcess, hty]
    | some t =>
        rw [hty] at h
        simp [splittingProcess, hty, truthyOpt] at h ⊢
        simp [h]
  · have hcondeq : splitCond st r = .ok true := by
      rcases hcond with hs | ⟨s, hlk, hstr, hval⟩
      · simp [splitCond, hs]
      · cases hs : st.strict_uuid with
        | false => simp [splitCond, hs]
        | true => simp [splitCond, hs, hlk, hstr, is_valid_uuid_str, hval]
    simp [splittingProcess, hty, htr, hcondeq]
  · cases hty' : rget r "type" with
    | none => simp [splittingProcess, hty']
    | some t =>
        have hcondeq : splitCond st r = .ok false := by
          rcases hbad with hlk | ⟨s, hlk, hval⟩
          · cases hlk' : rget r "linkid" with
            | none => simp [splitCond, hstrict, hlk']
            | some v =>
                rw [hlk'] at hlk
                simp only [truthyOpt] at hlk
                simp [splitCond, hstrict, hlk', hlk]
          · cases htr' : truthy (JsonVal.str s) with
            | false => simp [splitCond, hstrict, hlk, htr']
            | true => simp [splitCond, hstrict, hlk, htr', is_valid_uuid_str, hval]
        rw [hty'] at hty
        simp only [truthyOpt] at hty
        simp [splittingProcess, hty', hty, hcondeq]

/-- Witness for C7: strict mode and the spec's invalid `linkid` example
drop a `type="click"` record without creating a sink. -/
theorem splitting_process_routes_witness :
    (({ strict_uuid := true, writers := [] } : SplitState).strict_uuid = true) ∧
    (truthyOpt (rget [("linkid", JsonVal.str uuidBadStr), ("type", JsonVal.str "click")]
        "type") = true) ∧
    splittingProcess { strict_uuid := true, writers := [] }
        [("linkid", JsonVal.str uuidBadStr), ("type", JsonVal.str "click")] =
      .ok ({ strict_uuid := true, writers := [] },
        [("linkid", JsonVal.str uuidBadStr), ("type", JsonVal.str "click")]) :=
  ⟨rfl, by decide,
    (splitting_process_routes { strict_uuid := true, writers := [] }
        [("linkid", JsonVal.str uuidBadStr), ("type", JsonVal.str "click")]).2.2.1
      rfl (by decide) (Or.inr ⟨uuidBadStr, rfl, by decide⟩)⟩

/-! ### C1: the runner counts every record and closes every stage -/

theorem writeToType_keys_mem (ws : Writers) (t a : JsonVal) (r : Record)
    (h : a ∈ (writeToType ws t r).map Prod.fst) :
    a ∈ ws.map Prod.fst ∨ a = t := by
  induction ws with
  | nil =>
      simp only [writeToType, List.map, List.mem_singleton] at h
      exact Or.inr h
  | cons p rest ih =>
      obtain ⟨k, s⟩ := p
      by_cases hk : k = t
      · simp only [writeToType, if_pos hk, List.map, List.mem_cons] at h
        rcases h with rfl | h
        · exact Or.inl (List.mem_cons_self _ _)
        · exact Or.inl (List.mem_cons_of_mem k h)
      · simp only [writeToType, if_neg hk, List.map, List.mem_cons] at h
        rcases h with rfl | h
        · exact Or.inl (List.mem_cons_self _ _)
        · rcases ih h with h' | h'
          · exact Or.inl (List.mem_cons_of_mem k h')
          · exact Or.inr h'

theorem writeToType_keys_nodup (ws : Writers) (t : JsonVal) (r : Record)
    (h : (ws.map Prod.fst).Nodup) :
    ((writeToType ws t r).map Prod.fst).Nodup := by
  induction ws with
  | nil => simp [writeToType]
  | cons p rest ih =>
      obtain ⟨k, s⟩ := p
      simp only [List.map, List.nodup_cons] at h
      by_cases hk : k = t
      · simp only [writeToType, if_pos hk, List.map, List.nodup_cons]
        exact h
      · simp only [writeToType, if_neg hk, List.map, List.nodup_cons]
        refine ⟨fun hmem => ?_, ih h.2⟩
        rcases writeToType_keys_mem rest t k r hmem with h' | h'
        · exact h.1 h'
        · exact hk h'

theorem splittingProcess_nodup (st : SplitState) (r : Record) (out : SplitState × Record)
    (h : splittingProcess st r = .ok out) (hnd : (st.writers.map Prod.fst).Nodup) :
    (out.1.writers.map Prod.fst).Nodup := by
  simp only [splittingProcess] at h
  split at h
  · injection h with h'; subst h'; exact hnd
  · split at h
    · split at h
      · cases h
      · injection h with h'
        subst h'
        exact writeToType_keys_nodup st.writers _ r hnd
      · injection h with h'; subst h'; exact hnd
    · injection h with h'; subst h'; exact hnd

theorem stepRecord_nodup (ps : PipeState) (r : Record) (out : PipeState × Record)
    (h : stepRecord ps r = .ok out) (hnd : (ps.split.writers.map Prod.fst).Nodup) :
    (out.1.split.writers.map Prod.fst).Nodup := by
  simp only [stepRecord] at h
  split at h
  · cases h
  · split at h
    · cases h
    · split at h
      · cases h
      · rename_i heq
        injection h with h'
        subst h'
        exact splittingProcess_nodup ps.split _ _ heq hnd

theorem runLoop_ok (rs : List Record) : ∀ (ps : PipeState) (n : Nat)
    (ps' : PipeState) (total : Nat),
    (ps.split.writers.map Prod.fst).Nodup →
    runLoop ps n rs = .ok (ps', total) →
    total = n + rs.length ∧ ps'.val.closed = true ∧
      ∀ e ∈ ps'.split.writers, e.2.closed = true := by
  induction rs with
  | nil =>
      intro ps n ps' total hnd h
      simp only [runLoop] at h
      injection h with h'
      rw [Prod.mk.injEq] at h'
      obtain ⟨h1, h2⟩ := h'
      subst h1
      subst h2
      exact ⟨rfl, rfl, closeAllKeys_closed ps.split.writers hnd⟩
  | cons r rs ih =>
      intro ps n ps' total hnd h
      simp only [runLoop] at h
      cases hs : stepRecord ps r with
      | err e pr => rw [hs] at h; cases h
      | ok pr =>
          rw [hs] at h
          have hnd1 := stepRecord_nodup ps r pr hs hnd
          have := ih pr.1 (n + 1) ps' total hnd1 h
          refine ⟨?_, this.2⟩
          rw [this.1, List.length_cons]
          omega

/-- C1: a run of the full pipeline on a finite source that reaches
exhaustion reports a count equal to the number of records pulled (one
increment per record, each record passed through the stages in pipeline
order by `stepRecord`) and leaves every stage closed: the dead-letter sink
and every cached type sink. -/
theorem pipeline_run_counts_and_closes (rt : RateTable) (rs : List Record)
    (ps' : PipeState) (total : Nat)
    (h : runPipeline rt rs = .ok (ps', total)) :
    total = rs.length ∧ ps'.val.closed = true ∧
      ∀ e ∈ ps'.split.writers, e.2.closed = true := by
  have := runLoop_ok rs (initState rt) 0 ps' total (by simp [initState]) h
  simpa using this

/-- Witness for C1: one empty record is counted, dead-lettered, and both
stage sinks end closed. -/
theorem pipeline_run_counts_and_closes_witness :
    (runPipeline [] [[]] =
      .ok ({ cfg := { ex_rates := [], default_currency := "USD",
                      currency_key := "convusdvalue" },
             val := { contents := [[]], closed := true },
             split := { strict_uuid := true, writers := [] } }, 1)) ∧
    ((1 : Nat) = ([([] : Record)]).length ∧
      ({ contents := [[]], closed := true } : Sink).closed = true ∧
      ∀ e ∈ ({ strict_uuid := true, writers := [] } : SplitState).writers,
        e.2.closed = true) :=
  ⟨by decide,
    pipeline_run_counts_and_closes [] [[]]
      { cfg := { ex_rates := [], default_currency := "USD",
                 currency_key := "convusdvalue" },
        val := { contents := [[]], closed := true },
        split := { strict_uuid := true, writers := [] } } 1 (by decide)⟩

end PipeSpec
